import Mathlib

/-!
Shallow embedding of the core of the `ray-tracing-in-one-weekend` Rust
repository (files `src/hittable.rs`, `src/hitrecord.rs`, `src/shapes.rs`,
`src/materials.rs`, `src/raytracer.rs`, `src/color.rs`, `src/ray.rs`), used to
settle the claims of the specification against the code.

Modelling conventions:
* `f32` scalar values stored in data structures are modelled as rationals
  (`ℚ`); decimal literals of the source are taken at their decimal value.
* Ray parameters and other values that the source computes by division (where
  IEEE-754 infinities and NaN can arise: the AABB slab test, the rectangle and
  cylinder plane crossings) are modelled by the type `Fp` below, an extended
  rational with `nan`, `negInf` and `posInf`, whose operations and comparisons
  follow the IEEE-754 rules used by Rust's `f32` (with a single zero).
* `f32::sqrt` of the cylinder discriminant is irrational in general; the
  cylinder hit test therefore takes the exact square root as an explicit
  parameter `sqrtD`, and every theorem that uses it also proves
  `sqrtD ^ 2 = discriminant` and `0 ≤ sqrtD` for the concrete input.
* Materials of hit records and shared-ownership (`Arc`) details are not
  modelled: no claim depends on which material a record carries.
-/

namespace RTOW

/-- Extended rationals modelling the `f32` values produced by divisions in the
source: a finite value, the two infinities, or NaN. -/
inductive Fp where
  | nan : Fp
  | negInf : Fp
  | fin (q : ℚ) : Fp
  | posInf : Fp
  deriving DecidableEq, Repr

/-- IEEE-754 strict less-than on `Fp`: any comparison with NaN is false. -/
def Fp.lt : Fp → Fp → Bool
  | .nan, _ => false
  | _, .nan => false
  | .negInf, .negInf => false
  | .negInf, .fin _ => true
  | .negInf, .posInf => true
  | .fin _, .negInf => false
  | .posInf, _ => false
  | .fin _, .posInf => true
  | .fin a, .fin b => decide (a < b)

/-- IEEE-754 less-or-equal on `Fp`: any comparison with NaN is false. -/
def Fp.le : Fp → Fp → Bool
  | .nan, _ => false
  | _, .nan => false
  | .negInf, _ => true
  | .fin _, .negInf => false
  | .posInf, .negInf => false
  | .posInf, .fin _ => false
  | .fin a, .fin b => decide (a ≤ b)
  | .fin _, .posInf => true
  | .posInf, .posInf => true

/-- IEEE-754 negation on `Fp`. -/
def Fp.neg : Fp → Fp
  | .nan => .nan
  | .negInf => .posInf
  | .posInf => .negInf
  | .fin q => .fin (-q)

/-- IEEE-754 addition on `Fp`: NaN propagates, opposite infinities give NaN. -/
def Fp.add : Fp → Fp → Fp
  | .nan, _ => .nan
  | _, .nan => .nan
  | .posInf, .negInf => .nan
  | .negInf, .posInf => .nan
  | .posInf, _ => .posInf
  | _, .posInf => .posInf
  | .negInf, _ => .negInf
  | _, .negInf => .negInf
  | .fin a, .fin b => .fin (a + b)

/-- IEEE-754 subtraction on `Fp`, as `a + (-b)`. -/
def Fp.sub (a b : Fp) : Fp := a.add b.neg

/-- IEEE-754 multiplication on `Fp`: NaN propagates, `0 * ±∞ = NaN`,
otherwise infinities follow the sign rules. -/
def Fp.mul : Fp → Fp → Fp
  | .nan, _ => .nan
  | _, .nan => .nan
  | .posInf, .posInf => .posInf
  | .posInf, .negInf => .negInf
  | .negInf, .posInf => .negInf
  | .negInf, .negInf => .posInf
  | .posInf, .fin b => if 0 < b then .posInf else if b < 0 then .negInf else .nan
  | .negInf, .fin b => if 0 < b then .negInf else if b < 0 then .posInf else .nan
  | .fin a, .posInf => if 0 < a then .posInf else if a < 0 then .negInf else .nan
  | .fin a, .negInf => if 0 < a then .negInf else if a < 0 then .posInf else .nan
  | .fin a, .fin b => .fin (a * b)

/-- IEEE-754 division on `Fp` (with a single zero, whose sign counts as
positive, matching the `+0.0` literals of the source): `x / 0` is `±∞` for
nonzero finite `x` and NaN for `x = 0`; `±∞ / ±∞` is NaN; finite over
infinite is `0`. -/
def Fp.div : Fp → Fp → Fp
  | .nan, _ => .nan
  | _, .nan => .nan
  | .posInf, .posInf => .nan
  | .posInf, .negInf => .nan
  | .negInf, .posInf => .nan
  | .negInf, .negInf => .nan
  | .posInf, .fin b => if b < 0 then .negInf else .posInf
  | .negInf, .fin b => if b < 0 then .posInf else .negInf
  | .fin _, .posInf => .fin 0
  | .fin _, .negInf => .fin 0
  | .fin a, .fin b =>
    if b = 0 then (if a = 0 then .nan else if 0 < a then .posInf else .negInf)
    else .fin (a / b)

/-- A 3-vector of finite `f32` values (`nalgebra::Vector3<f32>` holding
ordinary finite data), modelled over `ℚ`. -/
structure Vec3 where
  x : ℚ
  y : ℚ
  z : ℚ
  deriving DecidableEq, Repr

/-- Componentwise indexing, `v[0] = x`, `v[1] = y`, `v[2] = z`. -/
def Vec3.get (v : Vec3) : Nat → ℚ
  | 0 => v.x
  | 1 => v.y
  | _ => v.z

/-- A 3-vector of computed `f32` values that may be infinite or NaN. -/
structure Vec3F where
  x : Fp
  y : Fp
  z : Fp
  deriving DecidableEq, Repr

/-- Componentwise indexing on `Vec3F`. -/
def Vec3F.get (v : Vec3F) : Nat → Fp
  | 0 => v.x
  | 1 => v.y
  | _ => v.z

/-- Embed a finite vector into `Vec3F`. -/
def Vec3.toF (v : Vec3) : Vec3F := ⟨.fin v.x, .fin v.y, .fin v.z⟩

/-- Componentwise negation on `Vec3F`. -/
def Vec3F.neg (v : Vec3F) : Vec3F := ⟨v.x.neg, v.y.neg, v.z.neg⟩

/-- Dot product on `Vec3F`, summed left to right. -/
def Vec3F.dot (a b : Vec3F) : Fp :=
  ((a.x.mul b.x).add (a.y.mul b.y)).add (a.z.mul b.z)

/-- Squared Euclidean norm on `Vec3F` (`norm_squared`). -/
def Vec3F.normSquared (v : Vec3F) : Fp := v.dot v

/-- `Ray` of `src/ray.rs`: origin, direction and time sample. -/
structure Ray where
  origin : Vec3
  direction : Vec3
  time : ℚ
  deriving DecidableEq, Repr

/-- `Ray::new`, which sets the time to `0.`. -/
def Ray.new (origin direction : Vec3) : Ray := ⟨origin, direction, 0⟩

/-- `Ray::at` for a possibly infinite or NaN parameter: `origin + t * direction`
computed componentwise in `Fp`. -/
def Ray.atF (r : Ray) (t : Fp) : Vec3F :=
  ⟨(Fp.fin r.origin.x).add (t.mul (.fin r.direction.x)),
   (Fp.fin r.origin.y).add (t.mul (.fin r.direction.y)),
   (Fp.fin r.origin.z).add (t.mul (.fin r.direction.z))⟩

/-- `HitRecord` of `src/hitrecord.rs` (the material reference is not
modelled). Fields computed by the shapes may be non-finite, hence `Fp`. -/
structure HitRecord where
  point : Vec3F
  u : Fp
  v : Fp
  normal : Vec3F
  t : Fp
  front_face : Bool
  deriving DecidableEq, Repr

/-- `HitRecord::face_normal`: `front_face` is whether
`ray.direction().dot(&outward_normal) < 0.`, and the stored normal is the
outward normal if so, its negation otherwise. -/
def HitRecord.face_normal (ray : Ray) (outward_normal : Vec3F) : Bool × Vec3F :=
  let front_face := Fp.lt (Vec3F.dot ray.direction.toF outward_normal) (.fin 0)
  (front_face, if front_face then outward_normal else outward_normal.neg)

/-- `HitRecord::from_ray`: builds the record, deriving `front_face` and the
stored normal from the ray via `face_normal`. -/
def HitRecord.from_ray (point : Vec3F) (u v : Fp) (normal : Vec3F) (t : Fp)
    (ray : Ray) : HitRecord :=
  let fn := HitRecord.face_normal ray normal
  ⟨point, u, v, fn.2, t, fn.1⟩

/-- `Aabb` of `src/hittable.rs`: minimum and maximum corner. Corners stored by
the shapes are finite, hence `Vec3`. -/
structure Aabb where
  minimum : Vec3
  maximum : Vec3
  deriving DecidableEq, Repr

/-- `Aabb::surrounding`: componentwise `f32::min` of the minima and
`f32::max` of the maxima. -/
def Aabb.surrounding (self aabb : Aabb) : Aabb :=
  { minimum := ⟨min self.minimum.x aabb.minimum.x,
                min self.minimum.y aabb.minimum.y,
                min self.minimum.z aabb.minimum.z⟩
    maximum := ⟨max self.maximum.x aabb.maximum.x,
                max self.maximum.y aabb.maximum.y,
                max self.maximum.z aabb.maximum.z⟩ }

/-- The slab bounds of one axis in `Aabb::hit`:
`t0 = (min - origin) * inverse_distance` and
`t1 = (max - origin) * inverse_distance` with
`inverse_distance = 1 / direction`, swapped when the inverse is negative. -/
def slabSorted (lo hi o d : ℚ) : Fp × Fp :=
  if Fp.lt (Fp.div (.fin 1) (.fin d)) (.fin 0) then
    (Fp.mul (.fin (hi - o)) (Fp.div (.fin 1) (.fin d)),
     Fp.mul (.fin (lo - o)) (Fp.div (.fin 1) (.fin d)))
  else
    (Fp.mul (.fin (lo - o)) (Fp.div (.fin 1) (.fin d)),
     Fp.mul (.fin (hi - o)) (Fp.div (.fin 1) (.fin d)))

/-- The window update of one axis in `Aabb::hit`: raise `t_min` to `t0` and
lower `t_max` to `t1` where those tighten the window, and report `none` when
the window became empty (`t_max <= t_min`). -/
def slabUpdate (tt w : Fp × Fp) : Option (Fp × Fp) :=
  if Fp.le (if Fp.lt tt.2 w.2 then tt.2 else w.2)
      (if Fp.lt w.1 tt.1 then tt.1 else w.1) then none
  else some (if Fp.lt w.1 tt.1 then tt.1 else w.1,
             if Fp.lt tt.2 w.2 then tt.2 else w.2)

/-- One iteration of the slab loop in `Aabb::hit`, for one axis. -/
def slabStep (lo hi o d : ℚ) (w : Fp × Fp) : Option (Fp × Fp) :=
  slabUpdate (slabSorted lo hi o d) w

/-- `Aabb::hit`: the slab test, iterating over the x, y, z axes in order and
returning `false` as soon as the parameter window becomes empty. -/
def Aabb.hit (b : Aabb) (ray : Ray) (t_min t_max : Fp) : Bool :=
  match slabStep b.minimum.x b.maximum.x ray.origin.x ray.direction.x (t_min, t_max) with
  | none => false
  | some w1 =>
    match slabStep b.minimum.y b.maximum.y ray.origin.y ray.direction.y w1 with
    | none => false
    | some w2 =>
      match slabStep b.minimum.z b.maximum.z ray.origin.z ray.direction.z w2 with
      | none => false
      | some _ => true

/-- `Plane` of `src/shapes.rs`: the three axis-aligned orientations. -/
inductive Plane where
  | XY : Plane
  | YZ : Plane
  | XZ : Plane
  deriving DecidableEq, Repr

/-- `Plane::axes`: the indices of the two in-plane axes followed by the
normal axis. -/
def Plane.axes : Plane → Nat × Nat × Nat
  | .XY => (0, 1, 2)
  | .YZ => (1, 2, 0)
  | .XZ => (0, 2, 1)

/-- `Rectangle` of `src/shapes.rs` (the center offset and the material are not
modelled: all claims concern `hit_origin` and `bounding_box_origin`, which act
in the local frame). -/
structure Rectangle where
  orientation : Plane
  width : ℚ
  height : ℚ
  deriving DecidableEq, Repr

/-- `Rectangle::hit_origin`: solve for the crossing of the constant-coordinate
plane, reject a parameter outside the window, then bounds-check the two
in-plane coordinates; divisions follow `f32` semantics via `Fp`. -/
def Rectangle.hit_origin (r : Rectangle) (ray : Ray) (t_min t_max : Fp) :
    Option HitRecord :=
  let ax := r.orientation.axes
  let a_index := ax.1
  let b_index := ax.2.1
  let c_index := ax.2.2
  let a_min := -r.width / 2
  let a_max := r.width / 2
  let b_min := -r.height / 2
  let b_max := r.height / 2
  let t := Fp.div (.fin (-(ray.origin.get c_index))) (.fin (ray.direction.get c_index))
  if Fp.lt t t_min || Fp.lt t_max t then none
  else
    let point := ray.atF t
    let a := point.get a_index
    let b := point.get b_index
    if Fp.lt a (.fin a_min) || Fp.lt (.fin a_max) a ||
       Fp.lt b (.fin b_min) || Fp.lt (.fin b_max) b then none
    else
      let u := Fp.div (a.sub (.fin a_min)) (.fin (a_max - a_min))
      let v := Fp.div (b.sub (.fin b_min)) (.fin (b_max - b_min))
      let normal : Vec3F :=
        ⟨if c_index = 0 then .fin 1 else .fin 0,
         if c_index = 1 then .fin 1 else .fin 0,
         if c_index = 2 then .fin 1 else .fin 0⟩
      some (HitRecord.from_ray point u v normal t ray)

/-- `Rectangle::bounding_box_origin`: the source builds the box from
`-vector![width/2, height/2, 0.0001]` to `vector![width/2, height/2, 0.0001]`
without consulting `orientation`. -/
def Rectangle.bounding_box_origin (r : Rectangle) : Option Aabb :=
  some ⟨⟨-(r.width / 2), -(r.height / 2), -(1 / 10000)⟩,
        ⟨r.width / 2, r.height / 2, 1 / 10000⟩⟩

/-- `Cylinder` of `src/shapes.rs` (center offset and material not modelled). -/
structure Cylinder where
  radius : ℚ
  height : ℚ
  deriving DecidableEq, Repr

/-- The discriminant `b_halves^2 - a * c` computed inside
`Cylinder::hit_origin` for a given ray, with
`oc = (origin.x, 0, origin.z)`, `a = direction.x^2 + direction.z^2`,
`b_halves = oc ⬝ direction` and `c = |oc|^2 - radius^2`. -/
def Cylinder.discriminant (cyl : Cylinder) (ray : Ray) : ℚ :=
  let a := ray.direction.x ^ 2 + ray.direction.z ^ 2
  let b_halves := ray.origin.x * ray.direction.x + ray.origin.z * ray.direction.z
  let c := ray.origin.x ^ 2 + ray.origin.z ^ 2 - cyl.radius ^ 2
  b_halves ^ 2 - a * c

/-- `Cylinder::hit_origin`. The source computes `discriminant.sqrt()` on `f32`;
here the exact nonnegative square root is supplied as `sqrtD` (theorems using
this definition also prove `sqrtD ^ 2 = discriminant` and `0 ≤ sqrtD` for their
input). Lateral roots are divided by `a` in `f32` semantics (`Fp`); if the
first lateral point is above (below) the cap, the ray is retried against the
cap plane; the normal is `point / radius` with its y component zeroed. -/
def Cylinder.hit_originWith (sqrtD : ℚ) (cyl : Cylinder) (ray : Ray)
    (t_min t_max : Fp) : Option HitRecord :=
  let a := ray.direction.x ^ 2 + ray.direction.z ^ 2
  let b_halves := ray.origin.x * ray.direction.x + ray.origin.z * ray.direction.z
  if cyl.discriminant ray < 0 then none
  else
    let root1 := Fp.div (.fin (-b_halves - sqrtD)) (.fin a)
    let root2 := Fp.div (.fin (-b_halves + sqrtD)) (.fin a)
    if (Fp.lt root1 t_min || Fp.lt t_max root1) &&
       (Fp.lt root2 t_min || Fp.lt t_max root2) then none
    else
      let point1 := ray.atF root1
      let point2 := ray.atF root2
      let upper_bound := cyl.height / 2
      let lower_bound := -cyl.height / 2
      let rp : Option (Fp × Vec3F) :=
        if Fp.lt (.fin upper_bound) point1.y then
          if Fp.lt (.fin upper_bound) point2.y then none
          else if ray.direction.y = 0 then none
          else
            let root := Fp.div (.fin (upper_bound - ray.origin.y)) (.fin ray.direction.y)
            if Fp.lt root t_min || Fp.lt t_max root then none
            else some (root, ray.atF root)
        else if Fp.lt point1.y (.fin lower_bound) then
          if Fp.lt point2.y (.fin lower_bound) then none
          else if ray.direction.y = 0 then none
          else
            let root := Fp.div (.fin (lower_bound - ray.origin.y)) (.fin ray.direction.y)
            if Fp.lt root t_min || Fp.lt t_max root then none
            else some (root, ray.atF root)
        else
          if Fp.lt root1 t_min || Fp.lt t_max root1 then
            if Fp.lt root2 t_min || Fp.lt t_max root2 then none
            else some (root2, point2)
          else some (root1, point1)
      match rp with
      | none => none
      | some (root, point) =>
        let normal0 : Vec3F :=
          ⟨point.x.div (.fin cyl.radius), point.y.div (.fin cyl.radius),
           point.z.div (.fin cyl.radius)⟩
        let normal : Vec3F := ⟨normal0.x, .fin 0, normal0.z⟩
        some (HitRecord.from_ray point (.fin 0) (.fin 0) normal root ray)

/-- A member of a `HittableList`: an object implementing the `Hittable` trait,
given by the behaviour of its `hit` method (already composed with its own
`Offset`, which is the identity for the centers used here) and the result of
its `bounding_box(0., 0.)`. -/
structure Prim where
  hit : Ray → Fp → Fp → Option HitRecord
  box : Option Aabb

/-- The loop of `HittableList::hit_origin`: scan the members in order,
shrinking the upper window bound to the parameter of the closest hit found so
far and remembering that hit. -/
def hitListGo : List Prim → Ray → Fp → Fp → Option HitRecord → Option HitRecord
  | [], _, _, _, acc => acc
  | p :: rest, ray, t_min, closest_so_far, acc =>
    match p.hit ray t_min closest_so_far with
    | some hr => hitListGo rest ray t_min hr.t (some hr)
    | none => hitListGo rest ray t_min closest_so_far acc

/-- `HittableList::hit_origin`. -/
def hitListOrigin (l : List Prim) (ray : Ray) (t_min t_max : Fp) :
    Option HitRecord :=
  hitListGo l ray t_min t_max none

/-- The loop of `HittableList::bounding_box_origin`: accumulate the
surrounding box of the members seen so far, returning `none` as soon as a
member has no box. -/
def boundingBoxListGo : List Prim → Option Aabb → Option Aabb
  | [], acc => acc
  | p :: rest, acc =>
    match p.box with
    | none => none
    | some b =>
      boundingBoxListGo rest
        (some (match acc with | none => b | some a => a.surrounding b))

/-- `HittableList::bounding_box_origin`: `none` for the empty list, otherwise
the union of the members' boxes, `none` if any member has no box. -/
def boundingBoxListOrigin (l : List Prim) : Option Aabb :=
  if l.isEmpty then none else boundingBoxListGo l none

/-- `Bvh::check_hittable_list`: `false` for the empty list and whenever some
member has no bounding box. -/
def check_hittable_list (l : List Prim) : Bool :=
  if l.isEmpty then false else l.all fun p => p.box.isSome

/-- The sort key used by `Hittable::cmp_box`: the `minimum` coordinate of the
member's bounding box along the chosen axis. The source unwraps the box (it
would panic on a member without one); that case is unreachable after
`check_hittable_list`, and is mapped to `0` here. -/
def boxKey (axis : Fin 3) (p : Prim) : ℚ :=
  match p.box with
  | some b => b.minimum.get axis.val
  | none => 0

/-- Stable insertion of a member into a list sorted by `boxKey`, keeping the
inserted member before members of equal key that came later in the original
order. -/
def insertByKey (axis : Fin 3) (p : Prim) : List Prim → List Prim
  | [] => [p]
  | q :: rest =>
    if boxKey axis p ≤ boxKey axis q then p :: q :: rest
    else q :: insertByKey axis p rest

/-- `HittableList::sort_by_box`: a stable sort of the members by the minimum
coordinate of their boxes along `axis` (the source uses the standard stable
`sort_by`). -/
def sortByBox (axis : Fin 3) : List Prim → List Prim
  | [] => []
  | p :: rest => insertByKey axis p (sortByBox axis rest)

/-- `BoundingBoxError` of `src/hittable.rs`. -/
inductive BoundingBoxError where
  | mk : BoundingBoxError
  deriving DecidableEq, Repr

/-- A `Bvh` node as built by `Bvh::new`: a `One` leaf over a single member, a
`Two` node over two members, or a `Two` node over two sub-trees, each carrying
the `Aabb` computed for it at construction. -/
inductive BvhT where
  | one (aabb : Aabb) (p : Prim) : BvhT
  | twoP (aabb : Aabb) (left right : Prim) : BvhT
  | twoN (aabb : Aabb) (left right : BvhT) : BvhT

/-- The cached `aabb` field of a node (what `Bvh::bounding_box_origin`
returns). -/
def BvhT.aabb : BvhT → Aabb
  | .one b _ => b
  | .twoP b _ _ => b
  | .twoN b _ _ => b

theorem length_insertByKey (axis : Fin 3) (p : Prim) (l : List Prim) :
    (insertByKey axis p l).length = l.length + 1 := by
  induction l with
  | nil => rfl
  | cons q rest ih =>
    unfold insertByKey
    by_cases h : boxKey axis p ≤ boxKey axis q <;> simp [h, ih]

theorem length_sortByBox (axis : Fin 3) (l : List Prim) :
    (sortByBox axis l).length = l.length := by
  induction l with
  | nil => rfl
  | cons p rest ih => simp [sortByBox, length_insertByKey, ih]

/-- `Bvh::new`, parameterized by the random axis drawn at each recursion level
(`axisOf` may depend on the list being split, covering every outcome of the
per-level random choices). A failed `check_hittable_list` aborts with
`BoundingBoxError`; one member becomes a `One` leaf; two members are ordered
by `cmp_box` along the chosen axis; otherwise the list is sorted along the
chosen axis, split at the midpoint and both halves are built recursively. The
node box is the member box for `One` and the surrounding of the children's
boxes for `Two` (for sub-trees, their cached box). -/
def bvhNew (axisOf : List Prim → Fin 3) (l : List Prim) :
    Except BoundingBoxError BvhT :=
  if check_hittable_list l = false then .error .mk
  else
    match l with
    | [] => .error .mk
    | [p] =>
      match p.box with
      | some b => .ok (.one b p)
      | none => .error .mk
    | [a, b] =>
      let axis := axisOf l
      let fl := if boxKey axis a ≤ boxKey axis b then (a, b) else (b, a)
      match fl.1.box, fl.2.box with
      | some bl, some br => .ok (.twoP (bl.surrounding br) fl.1 fl.2)
      | none, _ => .error .mk
      | _, none => .error .mk
    | p1 :: p2 :: p3 :: rest =>
      let axis := axisOf l
      let sorted := sortByBox axis (p1 :: p2 :: p3 :: rest)
      let mid := sorted.length / 2
      match bvhNew axisOf (sorted.take mid), bvhNew axisOf (sorted.drop mid) with
      | .ok tl, .ok tr => .ok (.twoN (tl.aabb.surrounding tr.aabb) tl tr)
      | .error e, _ => .error e
      | _, .error e => .error e
termination_by l.length
decreasing_by
  · simp only [List.length_take, length_sortByBox, List.length_cons]
    omega
  · simp only [List.length_drop, length_sortByBox, List.length_cons]
    omega

/-- `Bvh::hit_origin`: prune with the node's box, else probe the left child,
shrink the window with its hit if any, probe the right child with the shrunk
window, and prefer the right hit. -/
def bvhHit : BvhT → Ray → Fp → Fp → Option HitRecord
  | .one aabb p, ray, t_min, t_max =>
    if aabb.hit ray t_min t_max = false then none
    else p.hit ray t_min t_max
  | .twoP aabb left right, ray, t_min, t_max =>
    if aabb.hit ray t_min t_max = false then none
    else
      let hit_left := left.hit ray t_min t_max
      let t_max2 := match hit_left with | some hr => hr.t | none => t_max
      match right.hit ray t_min t_max2 with
      | some hr => some hr
      | none => hit_left
  | .twoN aabb left right, ray, t_min, t_max =>
    if aabb.hit ray t_min t_max = false then none
    else
      let hit_left := bvhHit left ray t_min t_max
      let t_max2 := match hit_left with | some hr => hr.t | none => t_max
      match bvhHit right ray t_min t_max2 with
      | some hr => some hr
      | none => hit_left

/-- `HittableListOptions` of `src/hittable.rs`. -/
inductive HittableListOptions where
  | hittableList (l : List Prim) : HittableListOptions
  | bvh (t : BvhT) : HittableListOptions

/-- The world selection of `Raytracer::render_multithreaded`: build a BVH when
`check_hittable_list` succeeds, otherwise fall back to the linear-scan list.
The source calls `.expect(..)` on `Bvh::new` in the first branch; that panic
is modelled as `none`. -/
def renderWorld (axisOf : List Prim → Fin 3) (l : List Prim) :
    Option HittableListOptions :=
  if check_hittable_list l then
    match bvhNew axisOf l with
    | .ok t => some (.bvh t)
    | .error _ => none
  else some (.hittableList l)

/-- `Color` of `src/color.rs`: an RGB triple of `f32` channels. -/
structure Color where
  r : ℚ
  g : ℚ
  b : ℚ
  deriving DecidableEq, Repr

/-- Componentwise color addition (`impl ops::Add for Color`). -/
instance : Add Color where
  add c d := ⟨c.r + d.r, c.g + d.g, c.b + d.b⟩

/-- Componentwise color multiplication (`impl ops::Mul for Color`). -/
instance : Mul Color where
  mul c d := ⟨d.r * c.r, d.g * c.g, d.b * c.b⟩

/-- `BLACK` of `src/color.rs`. -/
def BLACK : Color := ⟨0, 0, 0⟩

/-- `SolidColor` of `src/textures.rs`. -/
structure SolidColor where
  color : Color
  deriving DecidableEq, Repr

/-- `Metal` of `src/materials.rs`, generic over its albedo texture; only the
constructors and the stored `fuzz` are relevant to the claims. -/
structure Metal (T : Type) where
  albedo : T
  fuzz : ℚ

/-- `Metal::new`: stores the fuzz argument if it is below `1.`, else `1.`. -/
def Metal.new {T : Type} (albedo : T) (fuzz : ℚ) : Metal T :=
  { albedo, fuzz := if fuzz < 1 then fuzz else 1 }

/-- `Metal::solid_color`: wraps the color in a `SolidColor` and stores the
fuzz argument unchanged. -/
def Metal.solid_color (albedo : Color) (fuzz : ℚ) : Metal SolidColor :=
  { albedo := ⟨albedo⟩, fuzz }

/-- The behaviour of a material as used by `Raytracer::ray_color`: its
`scatter` and `emit` methods. -/
structure MaterialM where
  scatter : Ray → HitRecord → Option (Ray × Color)
  emit : Fp → Fp → Vec3F → Color

/-- The behaviour of the world container (`Bvh` or `HittableList`) as used by
`Raytracer::ray_color`: its `hit` method, yielding the hit record together
with the material struck. -/
structure WorldM where
  hit : Ray → Fp → Fp → Option (HitRecord × MaterialM)

/-- `Raytracer::ray_color`: black once the bounce budget is exhausted; on a
hit in the window `(0.001, ∞)`, the emitted color plus, when the material
scatters, the attenuated color of the scattered ray one bounce deeper; the
background color on a miss. Both arms of the source's match on
`HittableListOptions` have this same body. -/
def rayColor (world : WorldM) (background : Color) : Ray → Nat → Color
  | _, 0 => BLACK
  | ray, depth + 1 =>
    match world.hit ray (.fin (1 / 1000)) .posInf with
    | some (hit, mat) =>
      let emitted := mat.emit hit.u hit.v hit.point
      match mat.scatter ray hit with
      | some (scattered, attenuation) =>
        emitted + attenuation * rayColor world background scattered depth
      | none => emitted
    | none => background

/-- The per-pixel work of `render_multithreaded`: start from `color![0,0,0]`,
add the `ray_color` of each of the pixel's sample rays, then divide each
channel by the sample count and apply `sqrt`. The `f32` square root is passed
in as `sqrtF`. -/
def renderPixelColor (sqrtF : ℚ → ℚ) (world : WorldM) (background : Color)
    (sampleRays : List Ray) (maxDepth : Nat) (samplesPerPixel : ℚ) : Color :=
  let summed := sampleRays.foldl
    (fun acc ray => acc + rayColor world background ray maxDepth) BLACK
  ⟨sqrtF (summed.r / samplesPerPixel), sqrtF (summed.g / samplesPerPixel),
   sqrtF (summed.b / samplesPerPixel)⟩

/-- Membership of a point in an axis-aligned box, used to state that a box
does (or does not) encompass a point of a shape. -/
def Aabb.containsPoint (b : Aabb) (p : Vec3) : Prop :=
  b.minimum.x ≤ p.x ∧ p.x ≤ b.maximum.x ∧
  b.minimum.y ≤ p.y ∧ p.y ≤ b.maximum.y ∧
  b.minimum.z ≤ p.z ∧ p.z ≤ b.maximum.z

instance (b : Aabb) (p : Vec3) : Decidable (b.containsPoint p) := by
  unfold Aabb.containsPoint; infer_instance

/-- Containment of box `inner` in box `outer`, componentwise. -/
def Aabb.containsBox (outer inner : Aabb) : Prop :=
  outer.minimum.x ≤ inner.minimum.x ∧ outer.minimum.y ≤ inner.minimum.y ∧
  outer.minimum.z ≤ inner.minimum.z ∧ inner.maximum.x ≤ outer.maximum.x ∧
  inner.maximum.y ≤ outer.maximum.y ∧ inner.maximum.z ≤ outer.maximum.z

instance (a b : Aabb) : Decidable (a.containsBox b) := by
  unfold Aabb.containsBox; infer_instance

/-! Concrete inputs used by the evaluation theorems and witnesses. -/

/-- A constant axis choice (axis 0 at every level). -/
def axisZero : List Prim → Fin 3 := fun _ => 0

/-- A member whose `bounding_box` is `None` (e.g. an unbounded shape). -/
def noBoxPrim : Prim := ⟨fun _ _ _ => none, none⟩

/-- The rectangle `Rectangle::yz(center, 4., 2.)` in its local frame: width 4
along y, height 2 along z, lying in the plane x = 0. -/
def rectYZ : Rectangle := ⟨.YZ, 4, 2⟩

/-- `rectYZ` as a list member (its center offset is zero, so its `hit` is its
`hit_origin` and its box is its `bounding_box_origin`). -/
def rectPrim : Prim := ⟨rectYZ.hit_origin, rectYZ.bounding_box_origin⟩

/-- The box that `Rectangle::bounding_box_origin` actually returns for
`rectYZ`. -/
def rectCodeBox : Aabb := ⟨⟨-2, -1, -(1 / 10000)⟩, ⟨2, 1, 1 / 10000⟩⟩

/-- A ray aimed at the point (0, 3/2, 0) of `rectYZ`. -/
def rayRect : Ray := Ray.new ⟨-1, 3 / 2, 0⟩ ⟨1, 0, 0⟩

/-- The cylinder `Cylinder::new(center, 1., 2.)` in its local frame. -/
def cylUnit : Cylinder := ⟨1, 2⟩

/-- A ray from above the cylinder, crossing its top cap plane at
(1/10, 1, 0). -/
def rayCap : Ray := Ray.new ⟨0, 2, 0⟩ ⟨1 / 10, -1, 0⟩

/-- The unit-radius box centered at the origin. -/
def unitBox : Aabb := ⟨⟨-1, -1, -1⟩, ⟨1, 1, 1⟩⟩

/-- An axis-parallel ray from the origin (two direction components zero). -/
def rayAxis : Ray := Ray.new ⟨0, 0, 0⟩ ⟨1, 0, 0⟩

/-- A hit record used to exercise `ray_color` on concrete worlds. -/
def hr0 : HitRecord :=
  ⟨⟨.fin 0, .fin 0, .fin 0⟩, .fin 0, .fin 0, ⟨.fin 0, .fin 0, .fin 1⟩, .fin 1, true⟩

/-- A fixed secondary ray for scattered bounces. -/
def ray0 : Ray := Ray.new ⟨0, 0, 0⟩ ⟨0, 0, 1⟩

/-- A material that always scatters into `ray0` with attenuation one half. -/
def matScatter : MaterialM :=
  ⟨fun _ _ => some (ray0, ⟨1 / 2, 1 / 2, 1 / 2⟩), fun _ _ _ => ⟨1, 0, 0⟩⟩

/-- A material that never scatters and emits green. -/
def matEmitOnly : MaterialM := ⟨fun _ _ => none, fun _ _ _ => ⟨0, 1, 0⟩⟩

/-- A world whose hit test always misses. -/
def worldMiss : WorldM := ⟨fun _ _ _ => none⟩

/-- A world that always reports `hr0` struck on `matScatter`. -/
def worldScatter : WorldM := ⟨fun _ _ _ => some (hr0, matScatter)⟩

/-- A world that always reports `hr0` struck on `matEmitOnly`. -/
def worldEmit : WorldM := ⟨fun _ _ _ => some (hr0, matEmitOnly)⟩

/-! Theorems settling the claims, preceded by small shared helper lemmas. -/

/-- Color addition, componentwise (unfolding of the `Add Color` instance). -/
theorem color_add_def (c d : Color) :
    c + d = ⟨c.r + d.r, c.g + d.g, c.b + d.b⟩ := rfl

/-- Color multiplication, componentwise (unfolding of the `Mul Color`
instance, which multiplies with the right operand first as the source
does). -/
theorem color_mul_def (c d : Color) :
    c * d = ⟨d.r * c.r, d.g * c.g, d.b * c.b⟩ := rfl

/-- C3: for every ray and outward normal, `HitRecord::face_normal` (as used by
`HitRecord::from_ray`) sets `front_face` exactly when
`dot(ray.direction, outward_normal) < 0`, stores the outward normal when
`front_face` holds and its negation otherwise, and hence satisfies
`dot(ray.direction, stored_normal) < 0` for a front hit. -/
theorem face_normal_spec (ray : Ray) (n : Vec3F) :
    ((HitRecord.face_normal ray n).1 = true ↔
      Fp.lt (Vec3F.dot ray.direction.toF n) (.fin 0) = true) ∧
    (HitRecord.face_normal ray n).2 =
      (if Fp.lt (Vec3F.dot ray.direction.toF n) (.fin 0) then n else n.neg) ∧
    ((HitRecord.face_normal ray n).1 = true →
      Fp.lt (Vec3F.dot ray.direction.toF (HitRecord.face_normal ray n).2)
        (.fin 0) = true) := by
  unfold HitRecord.face_normal
  refine ⟨Iff.rfl, rfl, fun h => ?_⟩
  simp only at h ⊢
  rw [if_pos h]
  exact h

/-- Witness for C3: a concrete front hit, discharging the implication. -/
theorem face_normal_spec_w :
    Fp.lt (Vec3F.dot (Vec3.toF ⟨0, 0, -1⟩) ⟨.fin 0, .fin 0, .fin 1⟩) (.fin 0)
      = true ∧
    (HitRecord.face_normal (Ray.new ⟨0, 0, 5⟩ ⟨0, 0, -1⟩)
      ⟨.fin 0, .fin 0, .fin 1⟩).2 = ⟨.fin 0, .fin 0, .fin 1⟩ := by
  have h := face_normal_spec (Ray.new ⟨0, 0, 5⟩ ⟨0, 0, -1⟩) ⟨.fin 0, .fin 0, .fin 1⟩
  have hdot : Fp.lt (Vec3F.dot (Vec3.toF ⟨0, 0, -1⟩) ⟨.fin 0, .fin 0, .fin 1⟩)
      (.fin 0) = true := by
    norm_num [Vec3F.dot, Vec3.toF, Fp.mul, Fp.add, Fp.lt]
  refine ⟨hdot, ?_⟩
  rw [h.2.1]
  simp only [Ray.new, hdot, if_true]

/-- C9: `Aabb::surrounding` is commutative and associative, and returns the
first box whenever it fully contains the second. -/
theorem aabb_surrounding_monoid (a b c : Aabb) :
    a.surrounding b = b.surrounding a ∧
    a.surrounding (b.surrounding c) = (a.surrounding b).surrounding c ∧
    (a.containsBox b → a.surrounding b = a) := by
  refine ⟨?_, ?_, fun h => ?_⟩
  · simp [Aabb.surrounding, Aabb.mk.injEq, Vec3.mk.injEq, min_comm, max_comm]
  · simp [Aabb.surrounding, Aabb.mk.injEq, Vec3.mk.injEq, min_assoc, max_assoc]
  · obtain ⟨h1, h2, h3, h4, h5, h6⟩ := h
    cases a
    simp_all [Aabb.surrounding, Aabb.mk.injEq, Vec3.mk.injEq,
      min_eq_left, max_eq_left]

/-- Witness for C9: the containment case at concrete boxes. -/
theorem aabb_surrounding_monoid_w :
    (Aabb.mk ⟨0, 0, 0⟩ ⟨10, 10, 10⟩).containsBox (Aabb.mk ⟨1, 1, 1⟩ ⟨2, 2, 2⟩) ∧
    (Aabb.mk ⟨0, 0, 0⟩ ⟨10, 10, 10⟩).surrounding (Aabb.mk ⟨1, 1, 1⟩ ⟨2, 2, 2⟩) =
      Aabb.mk ⟨0, 0, 0⟩ ⟨10, 10, 10⟩ :=
  ⟨by decide,
   (aabb_surrounding_monoid (Aabb.mk ⟨0, 0, 0⟩ ⟨10, 10, 10⟩)
     (Aabb.mk ⟨1, 1, 1⟩ ⟨2, 2, 2⟩) (Aabb.mk ⟨0, 0, 0⟩ ⟨10, 10, 10⟩)).2.2
     (by decide)⟩

/-- C8, counterexample: `Metal::new` with fuzz `-1` stores `-1` and
`Metal::solid_color` with fuzz `2` stores `2`; neither stored value lies in
`[0, 1]`. -/
theorem metal_fuzz_counterexample :
    (Metal.new (⟨BLACK⟩ : SolidColor) (-1)).fuzz = -1 ∧
    ¬ (0 ≤ (Metal.new (⟨BLACK⟩ : SolidColor) (-1)).fuzz ∧
        (Metal.new (⟨BLACK⟩ : SolidColor) (-1)).fuzz ≤ 1) ∧
    (Metal.solid_color BLACK 2).fuzz = 2 ∧
    ¬ (0 ≤ (Metal.solid_color BLACK 2).fuzz ∧
        (Metal.solid_color BLACK 2).fuzz ≤ 1) := by
  refine ⟨by norm_num [Metal.new], ?_, rfl, ?_⟩
  · rw [show (Metal.new (⟨BLACK⟩ : SolidColor) (-1)).fuzz = -1 by
      norm_num [Metal.new]]
    norm_num
  · rw [show (Metal.solid_color BLACK 2).fuzz = 2 from rfl]
    norm_num

/-- C8, amended: `Metal::new` stores `fuzz` when `fuzz < 1` and `1`
otherwise — clamping only from above, so the stored value is always at most 1
but negative fuzz is kept; `Metal::solid_color` stores the fuzz argument
unchanged, with no clamping at all. -/
theorem metal_fuzz_amended {T : Type} (albedo : T) (c : Color) (fuzz : ℚ) :
    (Metal.new albedo fuzz).fuzz = (if fuzz < 1 then fuzz else 1) ∧
    (Metal.new albedo fuzz).fuzz ≤ 1 ∧
    (Metal.solid_color c fuzz).fuzz = fuzz := by
  refine ⟨rfl, ?_, rfl⟩
  unfold Metal.new
  dsimp only
  split
  · linarith
  · exact le_refl 1

/-- C10: for the empty member list, `HittableList::hit_origin` misses for
every ray and window, `HittableList::bounding_box_origin` is `None`,
`Bvh::check_hittable_list` fails, `Bvh::new` returns `BoundingBoxError` for
every outcome of the axis choices, and the renderer takes the linear-scan
fallback. -/
theorem empty_list_behavior (ray : Ray) (t_min t_max : Fp)
    (axisOf : List Prim → Fin 3) :
    hitListOrigin [] ray t_min t_max = none ∧
    boundingBoxListOrigin [] = none ∧
    check_hittable_list [] = false ∧
    bvhNew axisOf [] = .error .mk ∧
    renderWorld axisOf [] = some (.hittableList []) := by
  refine ⟨rfl, rfl, rfl, ?_, rfl⟩
  rw [bvhNew]
  rfl

/-- C5: whenever some member of the list has no bounding box, `Bvh::new`
returns `BoundingBoxError` (for every outcome of the random axis choices, with
no partial construction), and the renderer's world selection falls back to the
linear-scan `HittableList` instead of a fatal error. -/
theorem bvh_unboundable_fallback (axisOf : List Prim → Fin 3) (l : List Prim)
    (p : Prim) (hp : p ∈ l) (hbox : p.box = none) :
    bvhNew axisOf l = .error .mk ∧
    renderWorld axisOf l = some (.hittableList l) := by
  have hne : l.isEmpty = false := by
    cases l with
    | nil => cases hp
    | cons q rest => rfl
  have hall : (l.all fun p => p.box.isSome) = false := by
    rw [List.all_eq_false]
    exact ⟨p, hp, by simp [hbox]⟩
  have hcheck : check_hittable_list l = false := by
    unfold check_hittable_list
    rw [hne]
    simpa using hall
  constructor
  · rw [bvhNew.eq_def, hcheck]
    rfl
  · unfold renderWorld
    rw [hcheck]
    rfl

/-- Witness for C5: a single member without a bounding box. -/
theorem bvh_unboundable_fallback_w :
    noBoxPrim ∈ [noBoxPrim] ∧ noBoxPrim.box = none ∧
    bvhNew axisZero [noBoxPrim] = .error .mk ∧
    renderWorld axisZero [noBoxPrim] = some (.hittableList [noBoxPrim]) := by
  have h := bvh_unboundable_fallback axisZero [noBoxPrim] noBoxPrim
    (List.mem_singleton.mpr rfl) rfl
  exact ⟨List.mem_singleton.mpr rfl, rfl, h.1, h.2⟩

/-- C2: `Raytracer::ray_color` equals the reference recursion — black at
depth 0; the background on a miss of the window `(0.001, ∞)`; emitted plus
attenuation times the recursive color of the scattered ray when the material
scatters; just the emitted color when it does not — and a pixel rendered with
`max_depth = 0` is pure black for every scene, sample-ray set and nonzero
sample count (the `f32` square root is any function with `sqrt 0 = 0`). -/
theorem ray_color_spec :
    (∀ (w : WorldM) (bg : Color) (ray : Ray), rayColor w bg ray 0 = BLACK) ∧
    (∀ (w : WorldM) (bg : Color) (ray : Ray) (d : Nat),
      w.hit ray (.fin (1 / 1000)) .posInf = none →
      rayColor w bg ray (d + 1) = bg) ∧
    (∀ (w : WorldM) (bg : Color) (ray : Ray) (d : Nat) (hit : HitRecord)
      (mat : MaterialM) (sc : Ray) (att : Color),
      w.hit ray (.fin (1 / 1000)) .posInf = some (hit, mat) →
      mat.scatter ray hit = some (sc, att) →
      rayColor w bg ray (d + 1) =
        mat.emit hit.u hit.v hit.point + att * rayColor w bg sc d) ∧
    (∀ (w : WorldM) (bg : Color) (ray : Ray) (d : Nat) (hit : HitRecord)
      (mat : MaterialM),
      w.hit ray (.fin (1 / 1000)) .posInf = some (hit, mat) →
      mat.scatter ray hit = none →
      rayColor w bg ray (d + 1) = mat.emit hit.u hit.v hit.point) ∧
    (∀ (sqrtF : ℚ → ℚ) (w : WorldM) (bg : Color) (rays : List Ray) (n : ℚ),
      sqrtF 0 = 0 → n ≠ 0 →
      renderPixelColor sqrtF w bg rays 0 n = BLACK) := by
  have hadd : ∀ c : Color, c + BLACK = c := by
    intro c
    cases c
    show Color.mk _ _ _ = _
    simp [BLACK]
  refine ⟨fun _ _ _ => rfl, ?_, ?_, ?_, ?_⟩
  · intro w bg ray d h
    simp only [rayColor, h]
  · intro w bg ray d hit mat sc att h1 h2
    simp only [rayColor, h1, h2]
  · intro w bg ray d hit mat h1 h2
    simp only [rayColor, h1, h2]
  · intro sqrtF w bg rays n hsqrt _
    unfold renderPixelColor
    have hfold : ∀ (rl : List Ray) (acc : Color),
        rl.foldl (fun acc ray => acc + rayColor w bg ray 0) acc = acc := by
      intro rl
      induction rl with
      | nil => intro acc; rfl
      | cons r rest ih =>
        intro acc
        rw [List.foldl_cons, show rayColor w bg r 0 = BLACK from rfl, hadd acc]
        exact ih acc
    rw [hfold rays BLACK]
    show Color.mk _ _ _ = _
    simp [BLACK, hsqrt]

/-- Witness for C2: the recursion equations and the depth-0 pixel at concrete
worlds — a miss returns the background, a scattering hit returns emitted plus
attenuated black, an absorbing hit returns only the emitted color, and a
two-sample pixel at depth 0 is black. -/
theorem ray_color_spec_w :
    rayColor worldMiss ⟨1, 2, 3⟩ ray0 1 = ⟨1, 2, 3⟩ ∧
    rayColor worldScatter ⟨1, 2, 3⟩ ray0 1 = ⟨1, 0, 0⟩ ∧
    rayColor worldEmit ⟨1, 2, 3⟩ ray0 1 = ⟨0, 1, 0⟩ ∧
    renderPixelColor id worldMiss ⟨1, 2, 3⟩ [ray0, ray0] 0 2 = BLACK := by
  have h := ray_color_spec
  refine ⟨h.2.1 worldMiss ⟨1, 2, 3⟩ ray0 0 rfl, ?_, ?_, ?_⟩
  · rw [h.2.2.1 worldScatter ⟨1, 2, 3⟩ ray0 0 hr0 matScatter ray0
      ⟨1 / 2, 1 / 2, 1 / 2⟩ rfl rfl]
    show Color.mk _ _ _ = _
    norm_num [matScatter, rayColor, BLACK, color_mul_def, color_add_def]
  · exact h.2.2.2.1 worldEmit ⟨1, 2, 3⟩ ray0 0 hr0 matEmitOnly rfl rfl
  · exact h.2.2.2.2 id worldMiss ⟨1, 2, 3⟩ [ray0, ray0] 2 rfl (by norm_num)

/-- Evaluation of `Rectangle::hit_origin` for `rectYZ` at `rayRect` over the
window `(0, ∞)`: the plane x = 0 is crossed at t = 1, at the point
(0, 3/2, 0) of the rectangle, with surface coordinates (7/8, 1/2) and stored
normal (-1, 0, 0) (a back-face hit). -/
theorem rectYZ_hit_eval :
    Rectangle.hit_origin rectYZ rayRect (.fin 0) .posInf =
      some ⟨⟨.fin 0, .fin (3 / 2), .fin 0⟩, .fin (7 / 8), .fin (1 / 2),
            ⟨.fin (-1), .fin 0, .fin 0⟩, .fin 1, false⟩ := by
  norm_num [Rectangle.hit_origin, rectYZ, rayRect, Ray.new, Plane.axes,
    Vec3.get, Ray.atF, Vec3F.get, Fp.div, Fp.mul, Fp.add, Fp.sub, Fp.neg,
    Fp.lt, HitRecord.from_ray, HitRecord.face_normal, Vec3F.dot, Vec3.toF,
    Vec3F.neg, HitRecord.mk.injEq, Vec3F.mk.injEq]

/-- C6: for the YZ rectangle of width 4 and height 2,
`Rectangle::bounding_box_origin` returns the box from (-2, -1, -0.0001) to
(2, 1, 0.0001) — thin along z and extended along x and y, although the
rectangle's in-plane axes are y and z and its normal axis is x — and that box
does not even contain the rectangle's own hit point (0, 3/2, 0). -/
theorem rectangle_bounding_box_bug :
    Rectangle.bounding_box_origin rectYZ = some rectCodeBox ∧
    rectYZ.orientation.axes = (1, 2, 0) ∧
    (Rectangle.hit_origin rectYZ rayRect (.fin 0) .posInf).map
      (fun hr => hr.point) = some ⟨.fin 0, .fin (3 / 2), .fin 0⟩ ∧
    ¬ rectCodeBox.containsPoint ⟨0, 3 / 2, 0⟩ := by
  refine ⟨?_, rfl, ?_, ?_⟩
  · norm_num [Rectangle.bounding_box_origin, rectYZ, rectCodeBox,
      Aabb.mk.injEq, Vec3.mk.injEq]
  · rw [rectYZ_hit_eval]
    rfl
  · norm_num [Aabb.containsPoint, rectCodeBox]

/-- C7: the cylinder of radius 1 and height 2 hit from above by the ray with
origin (0, 2, 0) and direction (1/10, -1, 0) crosses the top cap plane at
t = 1; `Cylinder::hit_origin` reports that hit with normal (-1/10, 0, 0),
whose squared norm is 1/100 — not unit length (the cap retry keeps the
lateral-surface normal formula). The supplied square root 1/10 is exact for
the discriminant 1/100 of this input. -/
theorem cylinder_cap_normal_not_unit :
    Cylinder.discriminant cylUnit rayCap = 1 / 100 ∧
    ((1 : ℚ) / 10) ^ 2 = 1 / 100 ∧ (0 : ℚ) ≤ 1 / 10 ∧
    Cylinder.hit_originWith (1 / 10) cylUnit rayCap (.fin 0) .posInf =
      some ⟨⟨.fin (1 / 10), .fin 1, .fin 0⟩, .fin 0, .fin 0,
            ⟨.fin (-(1 / 10)), .fin 0, .fin 0⟩, .fin 1, false⟩ ∧
    Vec3F.normSquared ⟨.fin (-(1 / 10)), .fin 0, .fin 0⟩ = .fin (1 / 100) ∧
    ((1 : ℚ) / 100) ≠ 1 := by
  refine ⟨?_, by norm_num, by norm_num, ?_, ?_, by norm_num⟩
  · norm_num [Cylinder.discriminant, cylUnit, rayCap, Ray.new]
  · norm_num [Cylinder.hit_originWith, Cylinder.discriminant, cylUnit, rayCap,
      Ray.new, Ray.atF, Vec3F.get, Fp.div, Fp.mul, Fp.add, Fp.sub, Fp.neg,
      Fp.lt, HitRecord.from_ray, HitRecord.face_normal, Vec3F.dot, Vec3.toF,
      Vec3F.neg, HitRecord.mk.injEq, Vec3F.mk.injEq]
  · norm_num [Vec3F.normSquared, Vec3F.dot, Fp.mul, Fp.add]

/-- C1: a one-member scene on which BVH traversal and the linear scan
disagree. The member is `rectYZ`, whose box (from the claim's premises) is
present; `Bvh::new` (for every axis choice this build consults none) yields
the single-leaf tree cached with that box; on `rayRect` the slab test against
the cached box fails (the box is wrong for a YZ rectangle), so `Bvh::hit`
returns `None`, while `HittableList::hit` returns a hit with t = 1. -/
theorem bvh_list_hit_divergence :
    rectPrim.box = some rectCodeBox ∧
    bvhNew axisZero [rectPrim] = .ok (.one rectCodeBox rectPrim) ∧
    rectCodeBox.hit rayRect (.fin 0) .posInf = false ∧
    bvhHit (.one rectCodeBox rectPrim) rayRect (.fin 0) .posInf = none ∧
    (hitListOrigin [rectPrim] rayRect (.fin 0) .posInf).map (fun hr => hr.t) =
      some (.fin 1) := by
  have hbox : rectPrim.box = some rectCodeBox := by
    norm_num [rectPrim, rectYZ, Rectangle.bounding_box_origin, rectCodeBox,
      Aabb.mk.injEq, Vec3.mk.injEq]
  have hcheck : check_hittable_list [rectPrim] = true := by
    simp [check_hittable_list, hbox]
  have hmiss : rectCodeBox.hit rayRect (.fin 0) .posInf = false := by
    norm_num [Aabb.hit, slabStep, slabUpdate, slabSorted, rectCodeBox,
      rayRect, Ray.new, Fp.div, Fp.mul, Fp.lt, Fp.le]
  refine ⟨hbox, ?_, hmiss, ?_, ?_⟩
  · rw [bvhNew.eq_def]
    simp only [hcheck, hbox]
    rfl
  · simp [bvhHit, hmiss]
  · have hhit : rectPrim.hit rayRect (.fin 0) .posInf =
        some ⟨⟨.fin 0, .fin (3 / 2), .fin 0⟩, .fin (7 / 8), .fin (1 / 2),
              ⟨.fin (-1), .fin 0, .fin 0⟩, .fin 1, false⟩ := rectYZ_hit_eval
    simp only [hitListOrigin, hitListGo, hhit, Option.map_some]
    rfl

/-! Helper lemmas for evaluating `Fp` operations symbolically, used in the
slab-test proof. -/

theorem Fp_div_fin_ne (a b : ℚ) (hb : b ≠ 0) :
    Fp.div (.fin a) (.fin b) = .fin (a / b) := by simp [Fp.div, hb]

theorem Fp_div_one_zero : Fp.div (.fin 1) (.fin 0) = .posInf := by
  norm_num [Fp.div]

theorem Fp_mul_fin_fin (a b : ℚ) : Fp.mul (.fin a) (.fin b) = .fin (a * b) :=
  rfl

theorem Fp_mul_fin_posInf_pos (a : ℚ) (ha : 0 < a) :
    Fp.mul (.fin a) .posInf = .posInf := by simp [Fp.mul, ha]

theorem Fp_mul_fin_posInf_neg (a : ℚ) (ha : a < 0) :
    Fp.mul (.fin a) .posInf = .negInf := by
  simp [Fp.mul, ha, asymm ha]

theorem Fp_lt_fin_fin_true (a b : ℚ) (h : a < b) :
    Fp.lt (.fin a) (.fin b) = true := by simp [Fp.lt, h]

theorem Fp_lt_fin_fin_false (a b : ℚ) (h : ¬ a < b) :
    Fp.lt (.fin a) (.fin b) = false := by simp [Fp.lt, h]

theorem Fp_lt_posInf_any (x : Fp) : Fp.lt .posInf x = false := by
  cases x <;> rfl

theorem Fp_lt_fin_negInf (a : ℚ) : Fp.lt (.fin a) .negInf = false := rfl

theorem Fp_lt_fin_posInf (a : ℚ) : Fp.lt (.fin a) .posInf = true := rfl

theorem Fp_le_fin_fin_false (a b : ℚ) (h : ¬ a ≤ b) :
    Fp.le (.fin a) (.fin b) = false := by simp [Fp.le, h]

theorem Fp_le_posInf_fin (a : ℚ) : Fp.le .posInf (.fin a) = false := rfl

/-- One slab-loop iteration over a window anchored at `t_min = 0`: if the
origin coordinate lies strictly inside the slab and the upper window bound is
`+∞` or a positive finite value, the iteration does not reject and keeps the
window anchored at `0` with an upper bound of the same kind (covering positive,
negative and zero direction components). -/
theorem slabStep_inside (lo hi o d : ℚ) (hlo : lo < o) (hhi : o < hi)
    (tmax : Fp) (htm : tmax = .posInf ∨ ∃ q, tmax = .fin q ∧ 0 < q) :
    ∃ tmax2, slabStep lo hi o d (.fin 0, tmax) = some (.fin 0, tmax2) ∧
      (tmax2 = .posInf ∨ ∃ q, tmax2 = .fin q ∧ 0 < q) := by
  have hsub_lo : lo - o < 0 := by linarith
  have hsub_hi : 0 < hi - o := by linarith
  have key : ∃ ta tb, slabSorted lo hi o d = (ta, tb) ∧
      (ta = .negInf ∨ ∃ a, ta = .fin a ∧ a < 0) ∧
      (tb = .posInf ∨ ∃ b, tb = .fin b ∧ 0 < b) := by
    rcases lt_trichotomy d 0 with hd | rfl | hd
    · have hdne : d ≠ 0 := ne_of_lt hd
      have hinv : (1 : ℚ) / d < 0 := one_div_neg.mpr hd
      refine ⟨_, _, ?_, Or.inr ⟨_, rfl, mul_neg_of_pos_of_neg hsub_hi hinv⟩,
        Or.inr ⟨_, rfl, mul_pos_of_neg_of_neg hsub_lo hinv⟩⟩
      unfold slabSorted
      rw [Fp_div_fin_ne 1 d hdne, Fp_lt_fin_fin_true _ _ hinv,
        Fp_mul_fin_fin, Fp_mul_fin_fin]
      simp
    · refine ⟨.negInf, .posInf, ?_, Or.inl rfl, Or.inl rfl⟩
      simp [slabSorted, Fp_div_one_zero, Fp_lt_posInf_any,
        Fp_mul_fin_posInf_neg _ hsub_lo, Fp_mul_fin_posInf_pos _ hsub_hi]
    · have hdne : d ≠ 0 := ne_of_gt hd
      have hinv : 0 < (1 : ℚ) / d := one_div_pos.mpr hd
      refine ⟨_, _, ?_, Or.inr ⟨_, rfl, mul_neg_of_neg_of_pos hsub_lo hinv⟩,
        Or.inr ⟨_, rfl, mul_pos hsub_hi hinv⟩⟩
      unfold slabSorted
      rw [Fp_div_fin_ne 1 d hdne, Fp_lt_fin_fin_false _ _ (asymm hinv),
        Fp_mul_fin_fin, Fp_mul_fin_fin]
      simp
  obtain ⟨ta, tb, hpair, h0, h1⟩ := key
  unfold slabStep
  rw [hpair]
  unfold slabUpdate
  have hmin : (if Fp.lt (.fin 0) ta then ta else .fin 0) = .fin 0 := by
    rcases h0 with rfl | ⟨a, rfl, ha⟩
    · rfl
    · rw [Fp_lt_fin_fin_false 0 a (by linarith)]
      simp
  have hw2good : (if Fp.lt tb tmax then tb else tmax) = .posInf ∨
      ∃ q, (if Fp.lt tb tmax then tb else tmax) = .fin q ∧ 0 < q := by
    by_cases hlt : Fp.lt tb tmax = true
    · rw [if_pos hlt]
      exact h1
    · rw [if_neg hlt]
      exact htm
  have hle : Fp.le (if Fp.lt tb tmax then tb else tmax) (.fin 0) = false := by
    rcases hw2good with he | ⟨q, he, hq⟩ <;> rw [he]
    · exact Fp_le_posInf_fin 0
    · exact Fp_le_fin_fin_false q 0 (by linarith)
  simp only [hmin, hle, Bool.false_eq_true, if_false]
  exact ⟨_, rfl, hw2good⟩

/-- C4: for every box whose minimum is strictly below its maximum
componentwise, and every ray whose origin lies strictly inside the box and
whose direction is nonzero (individual components may be zero, in which case
the divided slab bounds are infinite and that axis imposes no constraint),
`Aabb::hit` with `t_min = 0` and `t_max = ∞` returns `true`. -/
theorem aabb_hit_inside (b : Aabb) (ray : Ray)
    (_hmm : b.minimum.x < b.maximum.x ∧ b.minimum.y < b.maximum.y ∧
           b.minimum.z < b.maximum.z)
    (hin : (b.minimum.x < ray.origin.x ∧ ray.origin.x < b.maximum.x) ∧
           (b.minimum.y < ray.origin.y ∧ ray.origin.y < b.maximum.y) ∧
           (b.minimum.z < ray.origin.z ∧ ray.origin.z < b.maximum.z))
    (_hdir : ray.direction ≠ ⟨0, 0, 0⟩) :
    b.hit ray (.fin 0) .posInf = true := by
  obtain ⟨⟨hx1, hx2⟩, ⟨hy1, hy2⟩, hz1, hz2⟩ := hin
  obtain ⟨m1, e1, hm1⟩ :=
    slabStep_inside _ _ _ ray.direction.x hx1 hx2 .posInf (Or.inl rfl)
  obtain ⟨m2, e2, hm2⟩ :=
    slabStep_inside _ _ _ ray.direction.y hy1 hy2 m1 hm1
  obtain ⟨m3, e3, _⟩ :=
    slabStep_inside _ _ _ ray.direction.z hz1 hz2 m2 hm2
  unfold Aabb.hit
  simp only [e1, e2, e3]

/-- Witness for C4: the unit box and an axis-parallel ray from its center
(two direction components zero). -/
theorem aabb_hit_inside_w :
    unitBox.hit rayAxis (.fin 0) .posInf = true :=
  aabb_hit_inside unitBox rayAxis (by norm_num [unitBox])
    (by norm_num [unitBox, rayAxis, Ray.new])
    (by simp [rayAxis, Ray.new, Vec3.mk.injEq])

end RTOW
